import Mathlib

/-!
# Verification of the EMTMetrics core geometry and prediction routines

Shallow embedding of `src/emtmetrics/utils/calculations.py` and of the
decision logic of `src/emtmetrics/service/prediction_service.py`.

Conventions of the embedding:
* Python floats are modelled by exact numbers: `ℚ` where the code only does
  field arithmetic and comparisons, `ℝ` where it uses `sqrt`/trigonometry.
* A Python function that can `raise` is modelled as returning `Except Err α`;
  the constructors of `Err` name the Python exception classes.
* External collaborators (databases, the scipy k-d tree) are passed in as
  parameters: the route polyline, the distance table, coordinate lookups and
  the index pair returned by the nearest-neighbour query are arguments of the
  embedded functions.
-/

namespace EMTMetrics

/-- The Python exceptions that the embedded code can raise.
`valueError` models `ValueError` (the spec calls these OutOfRouteRange /
OutOfRange), `indexError` models `IndexError`, `pointNotClose` models
`PointNotCloseError` (the spec's PointNotOnRoute), `httpException s` models
`fastapi.HTTPException(status_code = s)` (the spec's BehindCurrentPosition is
the 400 raised by the prediction service), and `zeroDivisionError` models
`ZeroDivisionError`. -/
inductive Err where
  | valueError : Err
  | indexError : Err
  | pointNotClose : Err
  | httpException : Nat → Err
  | zeroDivisionError : Err
deriving DecidableEq, Repr

/-- Model of `interpolate_point` from `utils/calculations.py` (lines 178-221): linear
interpolation of the coordinates of a point between two known points.
Raises `ValueError` when `dist_p` is not between `dist_a` and `dist_b`;
returns point A unchanged when `dist_a == dist_b`. -/
def interpolate_point (lat_a lon_a dist_a lat_b lon_b dist_b dist_p : ℚ) :
    Except Err (ℚ × ℚ) :=
  if ¬ (dist_a ≤ dist_p ∧ dist_p ≤ dist_b) then
    .error .valueError
  else if dist_a = dist_b then
    .ok (lat_a, lon_a)
  else
    let fraction := (dist_p - dist_a) / (dist_b - dist_a)
    .ok (lat_a + fraction * (lat_b - lat_a), lon_a + fraction * (lon_b - lon_a))

/-- The loop of Python's `bisect.bisect_left(a, x)`:
`while lo < hi: mid = (lo+hi)//2; if a[mid] < x: lo = mid+1 else: hi = mid`.
The extra `fuel` argument only makes the recursion structural (so concrete
runs reduce definitionally); `fuel = hi - lo` always suffices because each
iteration shrinks the interval. -/
def bisect_left_loop (l : List ℚ) (t : ℚ) : Nat → Nat → Nat → Nat
  | 0, lo, _ => lo
  | fuel + 1, lo, hi =>
    if lo < hi then
      let mid := (lo + hi) / 2
      if l.getD mid 0 < t then bisect_left_loop l t fuel (mid + 1) hi
      else bisect_left_loop l t fuel lo mid
    else lo

/-- Python's `bisect.bisect_left(l, t)` over the whole list. -/
def bisect_left (l : List ℚ) (t : ℚ) : Nat :=
  bisect_left_loop l t l.length 0 l.length

/-- Model of `find_surrounding_distances` from `utils/calculations.py` (lines 140-175):
locate the two consecutive entries of a sorted distance table that surround a
target value.  Raises `ValueError` for an empty table or a target outside
`[distances[0], distances[-1]]`.  The Python line
`if distances[idx] == target or idx == n:` indexes `distances[idx]` before
testing `idx == n`, so an out-of-range `idx` would surface as `IndexError`;
the `match` on `distances.get? idx` models that access. -/
def find_surrounding_distances (distances : List ℚ) (target : ℚ) :
    Except Err (ℚ × ℚ) :=
  if distances.isEmpty then .error .valueError
  else
    let n := distances.length
    if target < distances.getD 0 0 then .error .valueError
    else if distances.getD (n - 1) 0 < target then .error .valueError
    else
      let idx := bisect_left distances target
      if idx = 0 then .ok (distances.getD 0 0, distances.getD 0 0)
      else
        match distances.get? idx with
        | none => .error .indexError
        | some di =>
          if di = target ∨ idx = n then
            .ok (distances.getD (idx - 1) 0,
                 if idx < n then di else distances.getD (n - 1) 0)
          else
            .ok (distances.getD (idx - 1) 0, di)

/-- Decision logic of `PredictionService.calculate_predicted_arrival_by_coords`
(`service/prediction_service.py`, lines 267-319) after its external calls: the
outputs of `calculate_average_speed` (`speed`, `last_timestamp`,
`absolute_last_point_distance`) and the target's absolute distance along the
route (`absolute_point_to_predict_distance`, computed through database lookups
and `calculate_distance_along_route`) enter as parameters.  The result tuple is
`(current_speed, predicted_arrival_time, predicted_time_seconds,
last_known_distance_traveled, target_distance_traveled)`; timestamps are
seconds, so `last_timestamp + timedelta(seconds=t)` is `last_timestamp + t`.
The source's guard is a nested pair of `if`s:
`if target > last: if target < last: raise HTTPException(400, "behind ...")`,
reproduced verbatim here. -/
def calculate_predicted_arrival_by_coords
    (speed last_timestamp absolute_last_point_distance
      absolute_point_to_predict_distance : ℚ) :
    Except Err (ℚ × ℚ × ℚ × ℚ × ℚ) :=
  let rest : Except Err (ℚ × ℚ × ℚ × ℚ × ℚ) :=
    if speed = 0 then .error .zeroDivisionError
    else
      let distance_to_travel :=
        absolute_point_to_predict_distance - absolute_last_point_distance
      let predicted_time := distance_to_travel / speed
      .ok (speed, last_timestamp + predicted_time, predicted_time,
           absolute_last_point_distance, absolute_point_to_predict_distance)
  if absolute_last_point_distance < absolute_point_to_predict_distance then
    if absolute_point_to_predict_distance < absolute_last_point_distance then
      .error (.httpException 400)
    else rest
  else rest

/-- Decision logic of
`PredictionService.calculate_predicted_arrival_time_by_distance`
(`service/prediction_service.py`, lines 321-363) after `calculate_average_speed`;
its outputs (`speed`, `last_timestamp`, `absolute_last_point_distance`,
`distance_traveled_list`) and the database lookup `get_coordinates` enter as
parameters.  The result tuple is `(latitude, longitude, current_speed,
predicted_arrival_time, last_known_distance_traveled,
predicted_time_seconds)`. -/
def calculate_predicted_arrival_time_by_distance
    (speed last_timestamp absolute_last_point_distance : ℚ)
    (distance_traveled_list : List ℚ) (get_coordinates : ℚ → ℚ × ℚ)
    (distance_traveled : ℚ) :
    Except Err (ℚ × ℚ × ℚ × ℚ × ℚ × ℚ) :=
  if distance_traveled < absolute_last_point_distance then
    .error (.httpException 400)
  else if speed = 0 then .error .zeroDivisionError
  else
    let distance_traveled_relative :=
      distance_traveled - absolute_last_point_distance
    let predicted_time := distance_traveled_relative / speed
    match find_surrounding_distances distance_traveled_list distance_traveled with
    | .error e => .error e
    | .ok (left_distance, right_distance) =>
      let left_point := get_coordinates left_distance
      let right_point := get_coordinates right_distance
      match interpolate_point left_point.1 left_point.2 left_distance
          right_point.1 right_point.2 right_distance distance_traveled with
      | .error e => .error e
      | .ok (latitude_predicted, longitude_predicted) =>
        .ok (latitude_predicted, longitude_predicted, speed,
             last_timestamp + predicted_time, absolute_last_point_distance,
             predicted_time)

end EMTMetrics

namespace EMTMetrics

/-- C1: in `calculate_predicted_arrival_by_coords` the BehindCurrentPosition
guard is dead code (`if target > last: if target < last: raise ...` can never
fire), so a target 50 m behind a last known position of 100 m at speed 1 m/s
returns a result with predicted time -50 s instead of failing. -/
theorem arrival_by_coords_behind_returns_negative_time :
    calculate_predicted_arrival_by_coords 1 0 100 50 =
      .ok (1, -50, -50, 100, 50) := by
  norm_num [calculate_predicted_arrival_by_coords]

/-- C2: whenever the requested `distance_traveled` is strictly less than the
current known absolute distance along the route,
`calculate_predicted_arrival_time_by_distance` fails with the 400
BehindCurrentPosition error and returns no prediction. -/
theorem arrival_time_by_distance_behind_fails
    (speed last_timestamp absolute_last_point_distance : ℚ)
    (distance_traveled_list : List ℚ) (get_coordinates : ℚ → ℚ × ℚ)
    (distance_traveled : ℚ)
    (h : distance_traveled < absolute_last_point_distance) :
    calculate_predicted_arrival_time_by_distance speed last_timestamp
      absolute_last_point_distance distance_traveled_list get_coordinates
      distance_traveled = .error (.httpException 400) := by
  simp [calculate_predicted_arrival_time_by_distance, h]

/-- Witness for C2 at speed 1 m/s, last known distance 100 m, target 50 m. -/
theorem arrival_time_by_distance_behind_fails_witness :
    (50 : ℚ) < 100 ∧
    calculate_predicted_arrival_time_by_distance 1 0 100 [] (fun _ => (0, 0))
      50 = .error (.httpException 400) :=
  ⟨by norm_num,
   arrival_time_by_distance_behind_fails 1 0 100 [] (fun _ => (0, 0)) 50
     (by norm_num)⟩

/-- C4: `interpolate_point` fails with the out-of-range `ValueError` exactly
when `dist_p` is outside the inclusive interval `[dist_a, dist_b]`, and
returns a coordinate pair whenever `dist_p` lies inside it. -/
theorem interpolate_point_error_iff
    (lat_a lon_a dist_a lat_b lon_b dist_b dist_p : ℚ) :
    (interpolate_point lat_a lon_a dist_a lat_b lon_b dist_b dist_p =
        .error .valueError ↔ ¬ (dist_a ≤ dist_p ∧ dist_p ≤ dist_b)) ∧
    ((dist_a ≤ dist_p ∧ dist_p ≤ dist_b) →
      ∃ p, interpolate_point lat_a lon_a dist_a lat_b lon_b dist_b dist_p =
        .ok p) := by
  refine ⟨?_, fun h => ?_⟩
  · by_cases h : dist_a ≤ dist_p ∧ dist_p ≤ dist_b
    · by_cases he : dist_a = dist_b <;> simp [interpolate_point, h, he]
    · simp [interpolate_point, h]
  · by_cases he : dist_a = dist_b
    · subst he
      exact ⟨(lat_a, lon_a), by simp [interpolate_point, h.1, h.2]⟩
    · exact ⟨(lat_a + (dist_p - dist_a) / (dist_b - dist_a) * (lat_b - lat_a),
              lon_a + (dist_p - dist_a) / (dist_b - dist_a) * (lon_b - lon_a)),
        by simp [interpolate_point, h, he]⟩

/-- Witness for C4 at `dist_a = 0 ≤ dist_p = 1 ≤ dist_b = 2`. -/
theorem interpolate_point_error_iff_witness :
    ((0 : ℚ) ≤ 1 ∧ (1 : ℚ) ≤ 2) ∧
    ∃ p, interpolate_point 0 0 0 1 1 2 1 = .ok p :=
  ⟨by norm_num, (interpolate_point_error_iff 0 0 0 1 1 2 1).2 (by norm_num)⟩

/-- C6: `interpolate_point` reproduces the endpoints: with a degenerate span
`dist_a = dist_b = dist_p = d` it returns A's coordinates, and for
`dA < dB` it returns A's coordinates at target `dA` and B's at target `dB`. -/
theorem interpolate_point_endpoints
    (lat_a lon_a lat_b lon_b d dA dB : ℚ) :
    interpolate_point lat_a lon_a d lat_b lon_b d d = .ok (lat_a, lon_a) ∧
    (dA < dB →
      interpolate_point lat_a lon_a dA lat_b lon_b dB dA = .ok (lat_a, lon_a) ∧
      interpolate_point lat_a lon_a dA lat_b lon_b dB dB = .ok (lat_b, lon_b)) := by
  refine ⟨by simp [interpolate_point], fun hlt => ⟨?_, ?_⟩⟩
  · simp [interpolate_point, le_of_lt hlt, ne_of_lt hlt]
  · have hne : dB - dA ≠ 0 := sub_ne_zero.mpr (ne_of_gt hlt)
    simp [interpolate_point, le_of_lt hlt, ne_of_lt hlt, div_self hne]

/-- Witness for C6 at `dA = 0 < dB = 1`, A = (1,2), B = (3,4). -/
theorem interpolate_point_endpoints_witness :
    (0 : ℚ) < 1 ∧
    (interpolate_point 1 2 0 3 4 1 0 = .ok (1, 2) ∧
     interpolate_point 1 2 0 3 4 1 1 = .ok (3, 4)) :=
  ⟨by norm_num, (interpolate_point_endpoints 1 2 3 4 0 0 1).2 (by norm_num)⟩

/-- In a `≤`-sorted list, `getD` is monotone on in-range indices. -/
lemma sorted_getD_mono {l : List ℚ} (hs : l.Sorted (· ≤ ·))
    {i j : Nat} (hij : i ≤ j) (hj : j < l.length) :
    l.getD i 0 ≤ l.getD j 0 := by
  have hi : i < l.length := Nat.lt_of_le_of_lt hij hj
  rw [List.getD_eq_getElem l 0 hi, List.getD_eq_getElem l 0 hj]
  rcases Nat.eq_or_lt_of_le hij with rfl | hlt
  · exact le_refl _
  · have := hs.rel_get_of_lt (show (⟨i, hi⟩ : Fin l.length) < ⟨j, hj⟩ from hlt)
    simpa using this

/-- Invariant of the `bisect_left` loop: starting from an interval whose left
part is entirely `< t` and whose right part is entirely `≥ t`, the loop lands
on the boundary. -/
lemma bisect_left_loop_spec (l : List ℚ) (t : ℚ)
    (hmono : ∀ i j, i ≤ j → j < l.length → l.getD i 0 ≤ l.getD j 0) :
    ∀ fuel lo hi, hi - lo ≤ fuel → lo ≤ hi → hi ≤ l.length →
      (∀ j, j < lo → l.getD j 0 < t) →
      (∀ j, hi ≤ j → j < l.length → t ≤ l.getD j 0) →
      lo ≤ bisect_left_loop l t fuel lo hi ∧
      bisect_left_loop l t fuel lo hi ≤ hi ∧
      (∀ j, j < bisect_left_loop l t fuel lo hi → l.getD j 0 < t) ∧
      (∀ j, bisect_left_loop l t fuel lo hi ≤ j → j < l.length →
        t ≤ l.getD j 0) := by
  intro fuel
  induction fuel with
  | zero =>
    intro lo hi hfuel hlohi hhil hlo hhi
    have heq : hi = lo := by omega
    subst heq
    simp only [bisect_left_loop]
    exact ⟨le_refl _, le_refl _, hlo, hhi⟩
  | succ fuel ih =>
    intro lo hi hfuel hlohi hhil hlo hhi
    by_cases hlh : lo < hi
    · have hmid1 : lo ≤ (lo + hi) / 2 := by omega
      have hmid2 : (lo + hi) / 2 < hi := by omega
      by_cases hcmp : l.getD ((lo + hi) / 2) 0 < t
      · have hlo' : ∀ j, j < (lo + hi) / 2 + 1 → l.getD j 0 < t := by
          intro j hj
          exact lt_of_le_of_lt (hmono j ((lo + hi) / 2) (by omega) (by omega))
            hcmp
        have h := ih ((lo + hi) / 2 + 1) hi (by omega) (by omega) hhil hlo' hhi
        simp only [bisect_left_loop, if_pos hlh, if_pos hcmp]
        exact ⟨le_trans (Nat.le_succ_of_le hmid1) h.1, h.2.1, h.2.2.1, h.2.2.2⟩
      · have hhi' : ∀ j, (lo + hi) / 2 ≤ j → j < l.length → t ≤ l.getD j 0 := by
          intro j hj hjl
          exact le_trans (not_lt.mp hcmp) (hmono ((lo + hi) / 2) j hj hjl)
        have h := ih lo ((lo + hi) / 2) (by omega) (by omega) (by omega) hlo hhi'
        simp only [bisect_left_loop, if_pos hlh, if_neg hcmp]
        exact ⟨h.1, le_trans h.2.1 (le_of_lt hmid2), h.2.2.1, h.2.2.2⟩
    · simp only [bisect_left_loop, if_neg hlh]
      exact ⟨le_refl _, hlohi, hlo, fun j hj hjl => hhi j (by omega) hjl⟩

/-- Specification of `bisect_left` on a sorted list: every index to the left
holds a value `< t`, every in-range index at or to the right holds `≥ t`. -/
lemma bisect_left_spec (l : List ℚ) (t : ℚ) (hs : l.Sorted (· ≤ ·)) :
    bisect_left l t ≤ l.length ∧
    (∀ j, j < bisect_left l t → l.getD j 0 < t) ∧
    (∀ j, bisect_left l t ≤ j → j < l.length → t ≤ l.getD j 0) := by
  have h := bisect_left_loop_spec l t
    (fun i j hij hj => sorted_getD_mono hs hij hj) l.length 0 l.length
    (by omega) (Nat.zero_le _) (le_refl _)
    (fun j hj => absurd hj (Nat.not_lt_zero j))
    (fun j hj hjl => absurd hjl (by omega))
  exact ⟨h.2.1, h.2.2.1, h.2.2.2⟩

/-- Unfolding of `find_surrounding_distances` on a non-empty table. -/
lemma find_surrounding_distances_body (l : List ℚ) (t : ℚ)
    (hemp : l.isEmpty = false) :
    find_surrounding_distances l t =
      (if t < l.getD 0 0 then .error .valueError
       else if l.getD (l.length - 1) 0 < t then .error .valueError
       else if bisect_left l t = 0 then .ok (l.getD 0 0, l.getD 0 0)
       else
         match l.get? (bisect_left l t) with
         | none => .error .indexError
         | some di =>
           if di = t ∨ bisect_left l t = l.length then
             .ok (l.getD (bisect_left l t - 1) 0,
               if bisect_left l t < l.length then di
               else l.getD (l.length - 1) 0)
           else .ok (l.getD (bisect_left l t - 1) 0, di)) := by
  simp only [find_surrounding_distances, hemp, Bool.false_eq_true, if_false]

/-- C3: on a sorted non-empty table, `find_surrounding_distances` fails with
the out-of-range `ValueError` exactly when the target is strictly below the
first entry or strictly above the last; otherwise it returns a bracketing
pair `(lo, hi)` with `lo ≤ target ≤ hi` and no error of any kind. -/
theorem find_surrounding_distances_range (l : List ℚ) (t : ℚ)
    (hne : l ≠ []) (hs : l.Sorted (· ≤ ·)) :
    (find_surrounding_distances l t = .error .valueError ↔
      (t < l.getD 0 0 ∨ l.getD (l.length - 1) 0 < t)) ∧
    ((l.getD 0 0 ≤ t ∧ t ≤ l.getD (l.length - 1) 0) →
      ∃ lo hi, find_surrounding_distances l t = .ok (lo, hi) ∧
        lo ≤ t ∧ t ≤ hi) := by
  have hemp : l.isEmpty = false := by simp [List.isEmpty_iff, hne]
  have hlen : 0 < l.length := List.length_pos.mpr hne
  have hbody := find_surrounding_distances_body l t hemp
  by_cases h1 : t < l.getD 0 0
  · have hfind : find_surrounding_distances l t = .error .valueError := by
      rw [hbody, if_pos h1]
    exact ⟨⟨fun _ => Or.inl h1, fun _ => hfind⟩,
      fun hr => absurd h1 (not_lt.mpr hr.1)⟩
  · by_cases h2 : l.getD (l.length - 1) 0 < t
    · have hfind : find_surrounding_distances l t = .error .valueError := by
        rw [hbody, if_neg h1, if_pos h2]
      exact ⟨⟨fun _ => Or.inr h2, fun _ => hfind⟩,
        fun hr => absurd h2 (not_lt.mpr hr.2)⟩
    · obtain ⟨hble, hblo, hbhi⟩ := bisect_left_spec l t hs
      have hidxn : bisect_left l t < l.length := by
        rcases Nat.lt_or_ge (bisect_left l t) l.length with h | h
        · exact h
        · exact absurd (hblo (l.length - 1) (by omega)) h2
      have hiff : ∀ lo hi, find_surrounding_distances l t = .ok (lo, hi) →
          (find_surrounding_distances l t = .error .valueError ↔
            (t < l.getD 0 0 ∨ l.getD (l.length - 1) 0 < t)) := by
        intro lo hi hok
        constructor
        · intro herr
          exact absurd (hok.symm.trans herr) (by simp)
        · rintro (h | h)
          · exact absurd h h1
          · exact absurd h h2
      by_cases h0 : bisect_left l t = 0
      · have hfind : find_surrounding_distances l t =
            .ok (l.getD 0 0, l.getD 0 0) := by
          rw [hbody, if_neg h1, if_neg h2, if_pos h0]
        exact ⟨hiff _ _ hfind,
          fun hr => ⟨l.getD 0 0, l.getD 0 0, hfind, not_lt.mp h1,
            hbhi 0 (by omega) hlen⟩⟩
      · have hget : l.get? (bisect_left l t) =
            some (l.getD (bisect_left l t) 0) := by
          rw [List.getD_eq_getElem l 0 hidxn, List.get?_eq_get hidxn,
            List.get_eq_getElem]
        have hfind : find_surrounding_distances l t =
            .ok (l.getD (bisect_left l t - 1) 0,
              l.getD (bisect_left l t) 0) := by
          rw [hbody, if_neg h1, if_neg h2, if_neg h0]
          simp only [hget]
          by_cases h3 : l.getD (bisect_left l t) 0 = t ∨
              bisect_left l t = l.length
          · rw [if_pos h3, if_pos hidxn]
          · rw [if_neg h3]
        exact ⟨hiff _ _ hfind,
          fun hr => ⟨l.getD (bisect_left l t - 1) 0,
            l.getD (bisect_left l t) 0, hfind,
            le_of_lt (hblo (bisect_left l t - 1) (by omega)),
            hbhi (bisect_left l t) (le_refl _) hidxn⟩⟩

/-- Witness for C3 on the table `[0, 50, 120, 300]` with target `80`. -/
theorem find_surrounding_distances_range_witness :
    ([(0 : ℚ), 50, 120, 300] ≠ [] ∧
      ([(0 : ℚ), 50, 120, 300].Sorted (· ≤ ·)) ∧
      ((0 : ℚ) ≤ 80 ∧ (80 : ℚ) ≤ 300)) ∧
    ∃ lo hi, find_surrounding_distances [0, 50, 120, 300] 80 = .ok (lo, hi) ∧
      lo ≤ 80 ∧ 80 ≤ hi := by
  have hne : [(0 : ℚ), 50, 120, 300] ≠ [] := by simp
  have hs : [(0 : ℚ), 50, 120, 300].Sorted (· ≤ ·) := by
    simp [List.sorted_cons]
    norm_num
  refine ⟨⟨hne, hs, by norm_num⟩, ?_⟩
  have h := (find_surrounding_distances_range [0, 50, 120, 300] 80 hne hs).2
  simpa using h (by norm_num)

/-- C9: for the sorted distance table `[0, 50, 120, 300]` and target `80`,
`find_surrounding_distances` returns exactly the pair `(50, 120)`. -/
theorem find_surrounding_distances_example :
    find_surrounding_distances [0, 50, 120, 300] 80 = .ok (50, 120) := by
  rfl

/-- Python's `math.radians`. -/
noncomputable def radians (x : ℝ) : ℝ := x * Real.pi / 180

/-- Python's `math.atan2(y, x)`: the two-argument arctangent of C's `atan2`. -/
noncomputable def atan2 (y x : ℝ) : ℝ :=
  if 0 < x then Real.arctan (y / x)
  else if x < 0 then
    (if 0 ≤ y then Real.arctan (y / x) + Real.pi
     else Real.arctan (y / x) - Real.pi)
  else
    (if 0 < y then Real.pi / 2
     else if y < 0 then -(Real.pi / 2) else 0)

/-- Model of `haversine` from `utils/calculations.py` (lines 103-110): great-circle
distance in metres with the Earth radius fixed at 6 371 000 m. -/
noncomputable def haversine (lon1 lat1 lon2 lat2 : ℝ) : ℝ :=
  let rlon1 := radians lon1
  let rlat1 := radians lat1
  let rlon2 := radians lon2
  let rlat2 := radians lat2
  let dlon := rlon2 - rlon1
  let dlat := rlat2 - rlat1
  let a := Real.sin (dlat / 2) ^ 2 +
    Real.cos rlat1 * Real.cos rlat2 * Real.sin (dlon / 2) ^ 2
  let c := 2 * atan2 (Real.sqrt a) (Real.sqrt (1 - a))
  6371000 * c

/-- Model of `calculate_distance_along_route` from `utils/calculations.py`
(lines 113-137): chord-ratio estimate of the along-route distance from `a` to
`p`; returns `0.0` when `a` and `b` have zero great-circle separation.
Points are `(longitude, latitude)` pairs, as in the docstring. -/
noncomputable def calculate_distance_along_route
    (a b p : ℝ × ℝ) (d_ab : ℝ) : ℝ :=
  let d_ap := haversine a.1 a.2 p.1 p.2
  let d_ab_straight := haversine a.1 a.2 b.1 b.2
  if d_ab_straight = 0 then 0
  else d_ap / d_ab_straight * d_ab

/-- Real `arctan` is nonnegative on nonnegative arguments. -/
lemma arctan_nonneg {x : ℝ} (hx : 0 ≤ x) : 0 ≤ Real.arctan x := by
  have := Real.arctan_strictMono.monotone hx
  rwa [Real.arctan_zero] at this

/-- Function `atan2 y x` is nonnegative whenever both arguments are. -/
lemma atan2_nonneg {y x : ℝ} (hy : 0 ≤ y) (hx : 0 ≤ x) : 0 ≤ atan2 y x := by
  unfold atan2
  by_cases h1 : 0 < x
  · rw [if_pos h1]
    exact arctan_nonneg (div_nonneg hy (le_of_lt h1))
  · rw [if_neg h1, if_neg (not_lt.mpr hx)]
    by_cases h2 : 0 < y
    · rw [if_pos h2]
      positivity
    · rw [if_neg h2, if_neg (not_lt.mpr hy)]

/-- The haversine distance is nonnegative (both `sqrt`s feeding `atan2` are
nonnegative). -/
lemma haversine_nonneg (lon1 lat1 lon2 lat2 : ℝ) :
    0 ≤ haversine lon1 lat1 lon2 lat2 := by
  simp only [haversine]
  set A := Real.sin ((radians lat2 - radians lat1) / 2) ^ 2 +
    Real.cos (radians lat1) * Real.cos (radians lat2) *
      Real.sin ((radians lon2 - radians lon1) / 2) ^ 2 with hA
  have h := atan2_nonneg (Real.sqrt_nonneg A) (Real.sqrt_nonneg (1 - A))
  nlinarith [h]

/-- The haversine distance of a point to itself is `0`. -/
lemma haversine_self (lon lat : ℝ) : haversine lon lat lon lat = 0 := by
  simp [haversine, atan2, Real.arctan_zero]

/-- C7: when `p` lies between `a` and `b` (its great-circle distance from `a`
is at most that of `b`) and the supplied along-route length `d_ab` is
nonnegative, `calculate_distance_along_route` stays within `[0, d_ab]`. -/
theorem calculate_distance_along_route_bounds (a b p : ℝ × ℝ) (d_ab : ℝ)
    (hd : 0 ≤ d_ab)
    (hp : haversine a.1 a.2 p.1 p.2 ≤ haversine a.1 a.2 b.1 b.2) :
    0 ≤ calculate_distance_along_route a b p d_ab ∧
      calculate_distance_along_route a b p d_ab ≤ d_ab := by
  simp only [calculate_distance_along_route]
  by_cases h0 : haversine a.1 a.2 b.1 b.2 = 0
  · rw [if_pos h0]
    exact ⟨le_refl 0, hd⟩
  · rw [if_neg h0]
    have hpos : 0 < haversine a.1 a.2 b.1 b.2 :=
      lt_of_le_of_ne (haversine_nonneg _ _ _ _) (Ne.symm h0)
    have hap : 0 ≤ haversine a.1 a.2 p.1 p.2 := haversine_nonneg _ _ _ _
    have hratio1 : haversine a.1 a.2 p.1 p.2 / haversine a.1 a.2 b.1 b.2 ≤ 1 :=
      (div_le_one hpos).mpr hp
    have hratio0 : 0 ≤ haversine a.1 a.2 p.1 p.2 / haversine a.1 a.2 b.1 b.2 :=
      div_nonneg hap (le_of_lt hpos)
    refine ⟨mul_nonneg hratio0 hd, ?_⟩
    calc haversine a.1 a.2 p.1 p.2 / haversine a.1 a.2 b.1 b.2 * d_ab
        ≤ 1 * d_ab := mul_le_mul_of_nonneg_right hratio1 hd
      _ = d_ab := one_mul _

/-- Witness for C7 with coincident points and `d_ab = 1`. -/
theorem calculate_distance_along_route_bounds_witness :
    ((0 : ℝ) ≤ 1 ∧ haversine 0 0 0 0 ≤ haversine 0 0 0 0) ∧
    (0 ≤ calculate_distance_along_route (0, 0) (0, 0) (0, 0) 1 ∧
      calculate_distance_along_route (0, 0) (0, 0) (0, 0) 1 ≤ 1) :=
  ⟨⟨by norm_num, le_refl _⟩,
   calculate_distance_along_route_bounds (0, 0) (0, 0) (0, 0) 1 (by norm_num)
     (le_refl _)⟩

/-- One iteration of the candidate loop of `correct_position`
(`utils/calculations.py`, lines 67-93): for candidate segment `(p1, p2)` and
query point `pos`, the projected point and its coordinate-space distance.
`np.dot` and `np.linalg.norm` are spelled out on coordinate pairs; the
`b == 0` branch is the zero-length-segment fallback. -/
noncomputable def segmentCandidate (pos p1 p2 : ℝ × ℝ) : (ℝ × ℝ) × ℝ :=
  let v := (p2.1 - p1.1, p2.2 - p1.2)
  let w := (pos.1 - p1.1, pos.2 - p1.2)
  let c := w.1 * v.1 + w.2 * v.2
  let b := v.1 * v.1 + v.2 * v.2
  if b = 0 then (p1, Real.sqrt (w.1 ^ 2 + w.2 ^ 2))
  else
    let t := max 0 (min 1 (c / b))
    let point_proy := (p1.1 + t * v.1, p1.2 + t * v.2)
    (point_proy,
      Real.sqrt ((pos.1 - point_proy.1) ^ 2 + (pos.2 - point_proy.2) ^ 2))

/-- C8: degenerate zero-length geometry never propagates an error:
`calculate_distance_along_route` returns exactly `0` when `a` and `b` have
zero great-circle separation, and a zero-length candidate segment in
`correct_position` is scored as the plain distance from its first endpoint,
with the projected point being that endpoint. -/
theorem degenerate_geometry_fallbacks (a b p : ℝ × ℝ) (d_ab : ℝ)
    (p1 p2 pos : ℝ × ℝ) :
    (haversine a.1 a.2 b.1 b.2 = 0 →
      calculate_distance_along_route a b p d_ab = 0) ∧
    (p1 = p2 → segmentCandidate pos p1 p2 =
      (p1, Real.sqrt ((pos.1 - p1.1) ^ 2 + (pos.2 - p1.2) ^ 2))) := by
  constructor
  · intro h0
    simp only [calculate_distance_along_route]
    rw [if_pos h0]
  · intro heq
    subst heq
    simp [segmentCandidate]

/-- Witness for C8 at the origin. -/
theorem degenerate_geometry_fallbacks_witness :
    (haversine 0 0 0 0 = 0 ∧ ((0 : ℝ), (0 : ℝ)) = ((0 : ℝ), (0 : ℝ))) ∧
    (calculate_distance_along_route (0, 0) (0, 0) (0, 0) 1 = 0 ∧
      segmentCandidate (0, 0) (0, 0) (0, 0) =
        ((0, 0), Real.sqrt (((0 : ℝ) - 0) ^ 2 + ((0 : ℝ) - 0) ^ 2))) :=
  ⟨⟨haversine_self 0 0, rfl⟩,
   ⟨(degenerate_geometry_fallbacks (0, 0) (0, 0) (0, 0) 1 (0, 0) (0, 0)
       (0, 0)).1 (haversine_self 0 0),
    (degenerate_geometry_fallbacks (0, 0) (0, 0) (0, 0) 1 (0, 0) (0, 0)
       (0, 0)).2 rfl⟩⟩

/-- Python list indexing `route[i]`: raises `IndexError` out of range. -/
def getE {α : Type} (route : List α) (i : Nat) : Except Err α :=
  match route.get? i with
  | some x => .ok x
  | none => .error .indexError

/-- Candidate segments contributed by one index of the nearest-neighbour
query (`utils/calculations.py`, lines 55-59): the predecessor segment when
`idx > 0` and the successor segment when `idx < len(route) - 1`, each list
access modelled as fallible. -/
def segmentsForIndex {α : Type} (route : List α) (idx : Nat) :
    Except Err (List (α × α)) := do
  let part1 ←
    if 0 < idx then do
      let a ← getE route (idx - 1)
      let b ← getE route idx
      pure [(a, b)]
    else pure []
  let part2 ←
    if idx < route.length - 1 then do
      let a ← getE route idx
      let b ← getE route (idx + 1)
      pure [(a, b)]
    else pure []
  pure (part1 ++ part2)

/-- The segment-construction loop of `correct_position` (lines 54-60):
candidates of all queried indices, concatenated in query order. -/
def segmentsFromIndices {α : Type} (route : List α) :
    List Nat → Except Err (List (α × α))
  | [] => .ok []
  | idx :: rest => do
    let s ← segmentsForIndex route idx
    let srest ← segmentsFromIndices route rest
    pure (s ++ srest)

/-- The index pair returned by `scipy.spatial.cKDTree.query(pos, k=2)` on a
tree built from a single point: the only real neighbour has index 0, and the
missing second neighbour is reported with index `n = 1`, scipy's documented
convention for missing neighbours. -/
def query_indices_single_vertex : List Nat := [0, 1]

open Classical in
/-- The best-candidate fold of `correct_position` (lines 63-93): Python
starts from `best_distance = inf` with no candidate, modelled by an `Option`
accumulator; a strictly smaller distance replaces the incumbent. -/
noncomputable def bestCandidate (pos : ℝ × ℝ) :
    List ((ℝ × ℝ) × (ℝ × ℝ)) →
    Option ((ℝ × ℝ) × ℝ × ((ℝ × ℝ) × (ℝ × ℝ))) →
    Option ((ℝ × ℝ) × ℝ × ((ℝ × ℝ) × (ℝ × ℝ)))
  | [], best => best
  | (p1, p2) :: rest, best =>
    let cand := segmentCandidate pos p1 p2
    let best' :=
      match best with
      | none => some (cand.1, cand.2, (p1, p2))
      | some (bp, bd, bs) =>
        if cand.2 < bd then some (cand.1, cand.2, (p1, p2))
        else some (bp, bd, bs)
    bestCandidate pos rest best'

open Classical in
/-- Model of `correct_position` from `utils/calculations.py` (lines 13-100).  The
`Decimal`/dict conversions at the top are identities here (inputs are already
coordinate pairs), and the scipy query is abstracted: the index list it
returns is the parameter `indices`.  Python's `list(set(segments))`
deduplication is `List.dedup`; a Python `set` iterates in unspecified order,
and every property proved below is order-independent.  With no candidate the
Python `best_distance` stays `inf`, which exceeds every float
`max_distance`, so the `none` case raises like the source does. -/
noncomputable def correct_position (route : List (ℝ × ℝ)) (indices : List Nat)
    (pos : ℝ × ℝ) (max_distance : ℝ) :
    Except Err ((ℝ × ℝ) × ℝ × ((ℝ × ℝ) × (ℝ × ℝ))) := do
  let segments ← segmentsFromIndices route indices
  match bestCandidate pos segments.dedup none with
  | none => .error .pointNotClose
  | some (bp, bd, bs) =>
    if max_distance < bd then .error .pointNotClose
    else .ok (bp, bd, bs)

/-- Starting the fold with an incumbent never yields `none`. -/
lemma bestCandidate_some (pos : ℝ × ℝ)
    (segs : List ((ℝ × ℝ) × (ℝ × ℝ)))
    (x : (ℝ × ℝ) × ℝ × ((ℝ × ℝ) × (ℝ × ℝ))) :
    bestCandidate pos segs (some x) ≠ none := by
  induction segs generalizing x with
  | nil => simp [bestCandidate]
  | cons hd tl ih =>
    obtain ⟨p1, p2⟩ := hd
    obtain ⟨bp, bd, bs⟩ := x
    simp only [bestCandidate]
    by_cases h : (segmentCandidate pos p1 p2).2 < bd
    · rw [if_pos h]
      exact ih _
    · rw [if_neg h]
      exact ih _

/-- The fold yields `none` from an empty accumulator iff there is no
candidate segment. -/
lemma bestCandidate_none_iff (pos : ℝ × ℝ)
    (segs : List ((ℝ × ℝ) × (ℝ × ℝ))) :
    bestCandidate pos segs none = none ↔ segs = [] := by
  cases segs with
  | nil => simp [bestCandidate]
  | cons hd tl =>
    obtain ⟨p1, p2⟩ := hd
    simp only [bestCandidate]
    exact ⟨fun h => absurd h (bestCandidate_some pos tl _), fun h => by
      exact absurd h (List.cons_ne_nil _ _)⟩

/-- Provenance: a result of the fold is either the initial incumbent or a
genuine candidate of one of the segments. -/
lemma bestCandidate_mem (pos : ℝ × ℝ)
    (segs : List ((ℝ × ℝ) × (ℝ × ℝ))) :
    ∀ b r, bestCandidate pos segs b = some r →
      b = some r ∨ (r.2.2 ∈ segs ∧
        (r.1, r.2.1) = segmentCandidate pos r.2.2.1 r.2.2.2) := by
  induction segs with
  | nil =>
    intro b r h
    exact Or.inl h
  | cons hd tl ih =>
    intro b r h
    obtain ⟨p1, p2⟩ := hd
    rcases b with _ | ⟨bp, bd, bs⟩ <;> simp only [bestCandidate] at h
    · rcases ih _ _ h with h' | ⟨hmem, hcand⟩
      · refine Or.inr ⟨?_, ?_⟩
        · have hr : r = ((segmentCandidate pos p1 p2).1,
              (segmentCandidate pos p1 p2).2, (p1, p2)) := by
            injection h'.symm
          rw [hr]
          exact List.mem_cons_self _ _
        · have hr : r = ((segmentCandidate pos p1 p2).1,
              (segmentCandidate pos p1 p2).2, (p1, p2)) := by
            injection h'.symm
          rw [hr]
      · exact Or.inr ⟨List.mem_cons_of_mem _ hmem, hcand⟩
    · by_cases hlt : (segmentCandidate pos p1 p2).2 < bd
      · rw [if_pos hlt] at h
        rcases ih _ _ h with h' | ⟨hmem, hcand⟩
        · refine Or.inr ⟨?_, ?_⟩
          · have hr : r = ((segmentCandidate pos p1 p2).1,
                (segmentCandidate pos p1 p2).2, (p1, p2)) := by
              injection h'.symm
            rw [hr]
            exact List.mem_cons_self _ _
          · have hr : r = ((segmentCandidate pos p1 p2).1,
                (segmentCandidate pos p1 p2).2, (p1, p2)) := by
              injection h'.symm
            rw [hr]
        · exact Or.inr ⟨List.mem_cons_of_mem _ hmem, hcand⟩
      · rw [if_neg hlt] at h
        rcases ih _ _ h with h' | ⟨hmem, hcand⟩
        · have hr : r = (bp, bd, bs) := by injection h'.symm
          exact Or.inl (by rw [hr])
        · exact Or.inr ⟨List.mem_cons_of_mem _ hmem, hcand⟩

/-- Minimality: the fold's result is no farther than every candidate segment
and no farther than the initial incumbent. -/
lemma bestCandidate_min (pos : ℝ × ℝ)
    (segs : List ((ℝ × ℝ) × (ℝ × ℝ))) :
    ∀ b r, bestCandidate pos segs b = some r →
      (∀ s ∈ segs, r.2.1 ≤ (segmentCandidate pos s.1 s.2).2) ∧
      (∀ x, b = some x → r.2.1 ≤ x.2.1) := by
  induction segs with
  | nil =>
    intro b r h
    have hb : b = some r := h
    refine ⟨fun s hs => absurd hs (List.not_mem_nil s), fun x hx => ?_⟩
    rw [hb] at hx
    have hr : r = x := by injection hx
    rw [hr]
  | cons hd tl ih =>
    intro b r h
    obtain ⟨p1, p2⟩ := hd
    rcases b with _ | ⟨bp, bd, bs⟩ <;> simp only [bestCandidate] at h
    · obtain ⟨htl, hinc⟩ := ih _ _ h
      have hcand : r.2.1 ≤ (segmentCandidate pos p1 p2).2 := hinc _ rfl
      refine ⟨fun s hs => ?_, fun x hx => by cases hx⟩
      rcases List.mem_cons.mp hs with rfl | hs'
      · exact hcand
      · exact htl s hs'
    · by_cases hlt : (segmentCandidate pos p1 p2).2 < bd
      · rw [if_pos hlt] at h
        obtain ⟨htl, hinc⟩ := ih _ _ h
        have hcand : r.2.1 ≤ (segmentCandidate pos p1 p2).2 := hinc _ rfl
        refine ⟨fun s hs => ?_, fun x hx => ?_⟩
        · rcases List.mem_cons.mp hs with rfl | hs'
          · exact hcand
          · exact htl s hs'
        · have hx' : x = (bp, bd, bs) := by injection hx.symm
          rw [hx']
          exact le_trans hcand (le_of_lt hlt)
      · rw [if_neg hlt] at h
        obtain ⟨htl, hinc⟩ := ih _ _ h
        have hb : r.2.1 ≤ bd := hinc _ rfl
        refine ⟨fun s hs => ?_, fun x hx => ?_⟩
        · rcases List.mem_cons.mp hs with rfl | hs'
          · exact le_trans hb (not_lt.mp hlt)
          · exact htl s hs'
        · have hx' : x = (bp, bd, bs) := by injection hx.symm
          rw [hx']
          exact hb

/-- Reduction of the `Except` monad's bind on a success value. -/
@[simp] lemma ok_bind {ε α β : Type} (a : α) (f : α → Except ε β) :
    (Except.ok a : Except ε α) >>= f = f a := rfl

/-- In the `Except` monad, `pure` is `ok`. -/
@[simp] lemma pure_eq_ok {ε α : Type} (a : α) :
    (pure a : Except ε α) = .ok a := rfl

/-- C5: with the candidate segments successfully constructed,
`correct_position` fails with `PointNotCloseError` exactly when every
candidate segment's projection distance exceeds `max_distance` (that is,
the minimum over all candidates exceeds the tolerance); otherwise it
returns a minimum-distance candidate: its projected point, its distance and
its bounding segment. -/
theorem correct_position_threshold (route : List (ℝ × ℝ)) (indices : List Nat)
    (pos : ℝ × ℝ) (max_distance : ℝ)
    (segments : List ((ℝ × ℝ) × (ℝ × ℝ)))
    (hsegs : segmentsFromIndices route indices = .ok segments) :
    (correct_position route indices pos max_distance =
        .error .pointNotClose ↔
      ∀ s ∈ segments, max_distance < (segmentCandidate pos s.1 s.2).2) ∧
    (∀ bp bd bs, correct_position route indices pos max_distance =
        .ok (bp, bd, bs) →
      bs ∈ segments ∧ (bp, bd) = segmentCandidate pos bs.1 bs.2 ∧
      bd ≤ max_distance ∧
      ∀ s ∈ segments, bd ≤ (segmentCandidate pos s.1 s.2).2) := by
  have hcp : correct_position route indices pos max_distance =
      (match bestCandidate pos segments.dedup none with
       | none => .error .pointNotClose
       | some (bp, bd, bs) =>
         if max_distance < bd then .error .pointNotClose
         else .ok (bp, bd, bs)) := by
    simp only [correct_position]
    rw [hsegs]
    rfl
  rcases hbc : bestCandidate pos segments.dedup none with _ | ⟨bp₀, bd₀, bs₀⟩
  · have hnil : segments = [] := by
      have h := (bestCandidate_none_iff pos segments.dedup).mp hbc
      exact (List.dedup_eq_nil segments).mp h
    subst hnil
    constructor
    · exact ⟨fun _ => by simp, fun _ => by simp [hcp, bestCandidate]⟩
    · intro bp bd bs hok
      rw [hcp] at hok
      simp [bestCandidate] at hok
  · rcases bestCandidate_mem pos segments.dedup none _ hbc with h' | ⟨hmem, hcand⟩
    · cases h'
    · obtain ⟨hmin, -⟩ := bestCandidate_min pos segments.dedup none _ hbc
      have hmem' : bs₀ ∈ segments := List.mem_dedup.mp hmem
      have hmin' : ∀ s ∈ segments, bd₀ ≤ (segmentCandidate pos s.1 s.2).2 :=
        fun s hs => hmin s (List.mem_dedup.mpr hs)
      have hscore : (segmentCandidate pos bs₀.1 bs₀.2).2 = bd₀ := by
        rw [← hcand]
      by_cases hthr : max_distance < bd₀
      · have herr : correct_position route indices pos max_distance =
            .error .pointNotClose := by
          simp only [hcp, hbc]
          rw [if_pos hthr]
        constructor
        · exact ⟨fun _ s hs => lt_of_lt_of_le hthr (hmin' s hs),
            fun _ => herr⟩
        · intro bp bd bs hok
          rw [herr] at hok
          cases hok
      · have hokr : correct_position route indices pos max_distance =
            .ok (bp₀, bd₀, bs₀) := by
          simp only [hcp, hbc]
          rw [if_neg hthr]
        constructor
        · constructor
          · intro herr
            rw [hokr] at herr
            cases herr
          · intro hall
            exact absurd (hscore ▸ hall bs₀ hmem') hthr
        · intro bp bd bs h
          have heq : (bp₀, bd₀, bs₀) = (bp, bd, bs) := by
            have h2 := hokr.symm.trans h
            injection h2
          cases heq
          exact ⟨hmem', hcand, not_lt.mp hthr, hmin'⟩

/-- Witness for C5 on the two-vertex route `[(0,0), (0,1)]` with query
indices `[0, 1]`, query point `(0,0)` and tolerance `1`. -/
theorem correct_position_threshold_witness :
    (segmentsFromIndices [((0 : ℝ), (0 : ℝ)), ((0 : ℝ), (1 : ℝ))] [0, 1] =
      .ok [(((0 : ℝ), (0 : ℝ)), ((0 : ℝ), (1 : ℝ))),
           (((0 : ℝ), (0 : ℝ)), ((0 : ℝ), (1 : ℝ)))]) ∧
    ((correct_position [((0 : ℝ), (0 : ℝ)), ((0 : ℝ), (1 : ℝ))] [0, 1]
          (0, 0) 1 = .error .pointNotClose ↔
        ∀ s ∈ [(((0 : ℝ), (0 : ℝ)), ((0 : ℝ), (1 : ℝ))),
               (((0 : ℝ), (0 : ℝ)), ((0 : ℝ), (1 : ℝ)))],
          (1 : ℝ) < (segmentCandidate (0, 0) s.1 s.2).2) ∧
      (∀ bp bd bs, correct_position [((0 : ℝ), (0 : ℝ)), ((0 : ℝ), (1 : ℝ))]
            [0, 1] (0, 0) 1 = .ok (bp, bd, bs) →
        bs ∈ [(((0 : ℝ), (0 : ℝ)), ((0 : ℝ), (1 : ℝ))),
              (((0 : ℝ), (0 : ℝ)), ((0 : ℝ), (1 : ℝ)))] ∧
        (bp, bd) = segmentCandidate (0, 0) bs.1 bs.2 ∧ bd ≤ 1 ∧
        ∀ s ∈ [(((0 : ℝ), (0 : ℝ)), ((0 : ℝ), (1 : ℝ))),
               (((0 : ℝ), (0 : ℝ)), ((0 : ℝ), (1 : ℝ)))],
          bd ≤ (segmentCandidate (0, 0) s.1 s.2).2)) :=
  ⟨rfl, correct_position_threshold _ _ _ _ _ rfl⟩

/-- In-range list access never raises. -/
lemma getE_ok {α : Type} (route : List α) (i : Nat) (h : i < route.length) :
    ∃ x, getE route i = .ok x :=
  ⟨route.get ⟨i, h⟩, by simp [getE, h]⟩

/-- Segment construction for one in-range index never raises. -/
lemma segmentsForIndex_ok {α : Type} (route : List α) (idx : Nat)
    (h : idx < route.length) :
    ∃ s, segmentsForIndex route idx = .ok s := by
  by_cases h1 : 0 < idx
  · obtain ⟨a, ha⟩ := getE_ok route (idx - 1) (by omega)
    obtain ⟨b, hb⟩ := getE_ok route idx h
    by_cases h2 : idx < route.length - 1
    · obtain ⟨c, hc⟩ := getE_ok route (idx + 1) (by omega)
      exact ⟨[(a, b), (b, c)], by simp [segmentsForIndex, h1, h2, ha, hb, hc]⟩
    · exact ⟨[(a, b)], by simp [segmentsForIndex, h1, h2, ha, hb]⟩
  · by_cases h2 : idx < route.length - 1
    · obtain ⟨b, hb⟩ := getE_ok route idx h
      obtain ⟨c, hc⟩ := getE_ok route (idx + 1) (by omega)
      exact ⟨[(b, c)], by simp [segmentsForIndex, h1, h2, hb, hc]⟩
    · exact ⟨[], by simp [segmentsForIndex, h1, h2]⟩

/-- Segment construction over in-range indices never raises. -/
lemma segmentsFromIndices_ok {α : Type} (route : List α)
    (indices : List Nat) (hbound : ∀ i ∈ indices, i < route.length) :
    ∃ s, segmentsFromIndices route indices = .ok s := by
  induction indices with
  | nil => exact ⟨[], rfl⟩
  | cons idx rest ih =>
    obtain ⟨s, hs⟩ :=
      segmentsForIndex_ok route idx (hbound idx (List.mem_cons_self _ _))
    obtain ⟨srest, hrest⟩ := ih fun i hi => hbound i (List.mem_cons_of_mem _ hi)
    exact ⟨s ++ srest, by simp [segmentsFromIndices, hs, hrest]⟩

/-- C10: on a route with a single vertex, the k=2 nearest-neighbour query
reports the missing neighbour with the out-of-range index `1`, and the
segment construction of `correct_position` hits `route[1]` and fails with
`IndexError`; on any route whose queried indices are all in range (as they
are whenever the route has at least two vertices), every list access of the
segment construction is in bounds and no error is raised. -/
theorem single_vertex_route_segments (pt : ℝ × ℝ) :
    segmentsFromIndices [pt] query_indices_single_vertex =
      .error .indexError ∧
    ∀ (route : List (ℝ × ℝ)) (indices : List Nat), 2 ≤ route.length →
      (∀ i ∈ indices, i < route.length) →
      ∃ segs, segmentsFromIndices route indices = .ok segs := by
  constructor
  · rfl
  · intro route indices hlen hbound
    exact segmentsFromIndices_ok route indices hbound

/-- Witness for C10 on the one-vertex route `[(0,0)]` and the two-vertex
route `[(0,0), (0,1)]` with indices `[0, 1]`. -/
theorem single_vertex_route_segments_witness :
    ((2 : Nat) ≤ [((0 : ℝ), (0 : ℝ)), ((0 : ℝ), (1 : ℝ))].length ∧
      ∀ i ∈ [0, 1], i < [((0 : ℝ), (0 : ℝ)), ((0 : ℝ), (1 : ℝ))].length) ∧
    (segmentsFromIndices [((0 : ℝ), (0 : ℝ))] query_indices_single_vertex =
        .error .indexError ∧
      ∃ segs, segmentsFromIndices
        [((0 : ℝ), (0 : ℝ)), ((0 : ℝ), (1 : ℝ))] [0, 1] = .ok segs) :=
  ⟨⟨by simp, by simp⟩,
   ⟨(single_vertex_route_segments ((0 : ℝ), (0 : ℝ))).1,
    (single_vertex_route_segments ((0 : ℝ), (0 : ℝ))).2
      [((0 : ℝ), (0 : ℝ)), ((0 : ℝ), (1 : ℝ))] [0, 1] (by simp) (by simp)⟩⟩

end EMTMetrics
